import Mathlib

/-!
Shallow embedding of `src/utils.py` from the root-finding-algorithms
repository.  Real numbers are modelled by `ℚ` (exact arithmetic with
decidable comparisons).  Python's `ZeroDivisionError` is modelled by an
explicit result variant `RootResult.divZero`; the `None` return of the
refiners by `RootResult.notFound`.  Each `while` loop is written as
structural recursion on a fuel argument equal to the number of loop-body
executions the Python code still allows: the Python loops post-increment
`iteration` and break once `iteration > max_iterations`, so the body runs
at most `max_iterations + 1` times and the top-level entry points pass
`max_iterations + 1` as the initial fuel.  Python's `elif` chains are
written as nested `if` expressions, and the two consecutive `if`
statements in the scanner body as four nested cases.
-/

/-- Result of one refiner call: a numeric estimate, the `None`
("no root found") signal, or a `ZeroDivisionError`. -/
inductive RootResult where
  | found (x : ℚ)
  | notFound
  | divZero
deriving DecidableEq, Repr

/-- It is `true` exactly when the result is a numeric estimate. -/
def RootResult.isNum : RootResult → Bool
  | .found _ => true
  | _ => false

/-- Loop body of `incremental_search` (src/utils.py lines 24-34), one fuel
unit per iteration of `while lb <= ub`.  Returns `none` when the fuel runs
out with the loop condition still true (the Python loop would keep
running), and `some (number_of_roots, intervals)` when the loop exits. -/
def incSearchAux (f : ℚ → ℚ) (ub inc : ℚ) :
    ℕ → ℚ → ℕ → List (ℚ × ℚ) → Option (ℕ × List (ℚ × ℚ))
  | 0, lb, n, acc => if lb ≤ ub then none else some (n, acc)
  | fuel + 1, lb, n, acc =>
    if lb ≤ ub then
      if f lb = 0 then
        if f lb * f (lb + inc) < 0 then
          incSearchAux f ub inc fuel (lb + inc) (n + 1 + 1)
            (acc ++ [(lb - inc, lb + inc)] ++ [(lb, lb + inc)])
        else
          incSearchAux f ub inc fuel (lb + inc) (n + 1)
            (acc ++ [(lb - inc, lb + inc)])
      else
        if f lb * f (lb + inc) < 0 then
          incSearchAux f ub inc fuel (lb + inc) (n + 1) (acc ++ [(lb, lb + inc)])
        else
          incSearchAux f ub inc fuel (lb + inc) n acc
    else some (n, acc)

/-- Model of `incremental_search` (src/utils.py lines 3-36).  For a
positive `increment_length` the fuel `⌈(ub - lb)/inc⌉.toNat + 1` covers
every iteration the Python loop performs, so the loop exit is reached and
the result is `some`; for a non-positive increment with `lb ≤ ub` the
Python loop never terminates, modelled by `none` for every fuel. -/
def incremental_search (f : ℚ → ℚ) (lb ub increment_length : ℚ) :
    Option (ℕ × List (ℚ × ℚ)) :=
  incSearchAux f ub increment_length
    (if 0 < increment_length then (⌈(ub - lb) / increment_length⌉).toNat + 1 else 0)
    lb 0 []

/-- Loop body of `bisection` (src/utils.py lines 57-72): one fuel unit per
execution of the `while lb <= ub` body; fuel 0 is the `break` taken once
`iteration > max_iterations`, which falls through to `return None`. -/
def bisectionAux (f : ℚ → ℚ) (t : ℚ) : ℕ → ℚ → ℚ → RootResult
  | 0, _, _ => .notFound
  | fuel + 1, lb, ub =>
    if lb ≤ ub then
      if -t < f ((lb + ub) / 2) ∧ f ((lb + ub) / 2) < t then .found ((lb + ub) / 2)
      else if f lb * f ((lb + ub) / 2) < 0 then
        bisectionAux f t fuel lb ((lb + ub) / 2)
      else if f ub * f ((lb + ub) / 2) < 0 then
        bisectionAux f t fuel ((lb + ub) / 2) ub
      else bisectionAux f t fuel lb ub
    else .notFound

/-- Model of `bisection` (src/utils.py lines 39-72). -/
def bisection (f : ℚ → ℚ) (lb ub : ℚ) (threshold : ℚ) (max_iterations : ℕ) :
    RootResult :=
  bisectionAux f threshold (max_iterations + 1) lb ub

/-- Number of midpoints examined by `bisectionAux`: one per executed loop
body. -/
def bisectionStepsAux (f : ℚ → ℚ) (t : ℚ) : ℕ → ℚ → ℚ → ℕ
  | 0, _, _ => 0
  | fuel + 1, lb, ub =>
    if lb ≤ ub then
      if -t < f ((lb + ub) / 2) ∧ f ((lb + ub) / 2) < t then 1
      else if f lb * f ((lb + ub) / 2) < 0 then
        bisectionStepsAux f t fuel lb ((lb + ub) / 2) + 1
      else if f ub * f ((lb + ub) / 2) < 0 then
        bisectionStepsAux f t fuel ((lb + ub) / 2) ub + 1
      else bisectionStepsAux f t fuel lb ub + 1
    else 0

/-- Number of midpoints a `bisection` call examines. -/
def bisectionSteps (f : ℚ → ℚ) (lb ub : ℚ) (threshold : ℚ)
    (max_iterations : ℕ) : ℕ :=
  bisectionStepsAux f threshold (max_iterations + 1) lb ub

/-- Loop body of `false_position` (src/utils.py lines 92-107).  The Python
expression `f(ub) * (lb - ub) / (f(lb) - f(ub))` raises
`ZeroDivisionError` exactly when `f lb - f ub = 0`. -/
def falsePositionAux (f : ℚ → ℚ) (t : ℚ) : ℕ → ℚ → ℚ → RootResult
  | 0, _, _ => .notFound
  | fuel + 1, lb, ub =>
    if lb ≤ ub then
      if f lb - f ub = 0 then .divZero
      else
        let xr := ub - f ub * (lb - ub) / (f lb - f ub)
        if -t < f xr ∧ f xr < t then .found xr
        else if f lb * f xr < 0 then falsePositionAux f t fuel lb xr
        else if f ub * f xr < 0 then falsePositionAux f t fuel xr ub
        else falsePositionAux f t fuel lb ub
    else .notFound

/-- Model of `false_position` (src/utils.py lines 74-107). -/
def false_position (f : ℚ → ℚ) (lb ub : ℚ) (threshold : ℚ)
    (max_iterations : ℕ) : RootResult :=
  falsePositionAux f threshold (max_iterations + 1) lb ub

/-- Loop body of `newton_raphson` (src/utils.py lines 127-138).  The update
`x = x - f(x)/f_der(x)` raises `ZeroDivisionError` exactly when
`f_der x = 0`, and it runs before the convergence check. -/
def newtonAux (f f_der : ℚ → ℚ) (t : ℚ) : ℕ → ℚ → RootResult
  | 0, _ => .notFound
  | fuel + 1, x =>
    if f_der x = 0 then .divZero
    else
      let x1 := x - f x / f_der x
      if -t < f x1 ∧ f x1 < t then .found x1
      else newtonAux f f_der t fuel x1

/-- Model of `newton_raphson` (src/utils.py lines 109-138). -/
def newton_raphson (f f_der : ℚ → ℚ) (x0 : ℚ) (threshold : ℚ)
    (max_iterations : ℕ) : RootResult :=
  newtonAux f f_der threshold (max_iterations + 1) x0

/-- Loop body of `secant` (src/utils.py lines 158-170).  The denominator
`f(x1) - f(x0)` raises `ZeroDivisionError` exactly when it is zero; the
pair shift `x0, x1 = x1, x` happens only when the loop continues. -/
def secantAux (f : ℚ → ℚ) (t : ℚ) : ℕ → ℚ → ℚ → RootResult
  | 0, _, _ => .notFound
  | fuel + 1, x0, x1 =>
    if f x1 - f x0 = 0 then .divZero
    else
      let x := x1 - f x1 * (x1 - x0) / (f x1 - f x0)
      if -t < f x ∧ f x < t then .found x
      else secantAux f t fuel x1 x

/-- Model of `secant` (src/utils.py lines 140-170). -/
def secant (f : ℚ → ℚ) (x0 x1 : ℚ) (threshold : ℚ)
    (max_iterations : ℕ) : RootResult :=
  secantAux f threshold (max_iterations + 1) x0 x1

/-- Loop body of `modified_secant` (src/utils.py lines 190-201): `x0` and
`dx` are never updated, so every iteration recomputes the same estimate. -/
def modifiedSecantAux (f : ℚ → ℚ) (t x0 dx : ℚ) : ℕ → RootResult
  | 0 => .notFound
  | fuel + 1 =>
    if f (x0 + dx) - f x0 = 0 then .divZero
    else
      let x := x0 - f x0 * dx / (f (x0 + dx) - f x0)
      if -t < f x ∧ f x < t then .found x
      else modifiedSecantAux f t x0 dx fuel

/-- Model of `modified_secant` (src/utils.py lines 172-201). -/
def modified_secant (f : ℚ → ℚ) (x0 dx : ℚ) (threshold : ℚ)
    (max_iterations : ℕ) : RootResult :=
  modifiedSecantAux f threshold x0 dx (max_iterations + 1)

/-! Unfolding equations for the fuel recursions, with `let` bindings
inlined so that `split` and `rw` apply directly. -/

theorem incSearchAux_zero (f : ℚ → ℚ) (ub inc lb : ℚ) (n : ℕ)
    (acc : List (ℚ × ℚ)) :
    incSearchAux f ub inc 0 lb n acc =
      if lb ≤ ub then none else some (n, acc) := rfl

theorem incSearchAux_succ (f : ℚ → ℚ) (ub inc : ℚ) (fuel : ℕ) (lb : ℚ)
    (n : ℕ) (acc : List (ℚ × ℚ)) :
    incSearchAux f ub inc (fuel + 1) lb n acc =
      if lb ≤ ub then
        if f lb = 0 then
          if f lb * f (lb + inc) < 0 then
            incSearchAux f ub inc fuel (lb + inc) (n + 1 + 1)
              (acc ++ [(lb - inc, lb + inc)] ++ [(lb, lb + inc)])
          else
            incSearchAux f ub inc fuel (lb + inc) (n + 1)
              (acc ++ [(lb - inc, lb + inc)])
        else
          if f lb * f (lb + inc) < 0 then
            incSearchAux f ub inc fuel (lb + inc) (n + 1) (acc ++ [(lb, lb + inc)])
          else
            incSearchAux f ub inc fuel (lb + inc) n acc
      else some (n, acc) := rfl

theorem bisectionAux_zero (f : ℚ → ℚ) (t lb ub : ℚ) :
    bisectionAux f t 0 lb ub = .notFound := rfl

theorem bisectionAux_succ (f : ℚ → ℚ) (t : ℚ) (fuel : ℕ) (lb ub : ℚ) :
    bisectionAux f t (fuel + 1) lb ub =
      if lb ≤ ub then
        if -t < f ((lb + ub) / 2) ∧ f ((lb + ub) / 2) < t then
          .found ((lb + ub) / 2)
        else if f lb * f ((lb + ub) / 2) < 0 then
          bisectionAux f t fuel lb ((lb + ub) / 2)
        else if f ub * f ((lb + ub) / 2) < 0 then
          bisectionAux f t fuel ((lb + ub) / 2) ub
        else bisectionAux f t fuel lb ub
      else .notFound := rfl

theorem bisectionStepsAux_zero (f : ℚ → ℚ) (t lb ub : ℚ) :
    bisectionStepsAux f t 0 lb ub = 0 := rfl

theorem bisectionStepsAux_succ (f : ℚ → ℚ) (t : ℚ) (fuel : ℕ) (lb ub : ℚ) :
    bisectionStepsAux f t (fuel + 1) lb ub =
      if lb ≤ ub then
        if -t < f ((lb + ub) / 2) ∧ f ((lb + ub) / 2) < t then 1
        else if f lb * f ((lb + ub) / 2) < 0 then
          bisectionStepsAux f t fuel lb ((lb + ub) / 2) + 1
        else if f ub * f ((lb + ub) / 2) < 0 then
          bisectionStepsAux f t fuel ((lb + ub) / 2) ub + 1
        else bisectionStepsAux f t fuel lb ub + 1
      else 0 := rfl

theorem falsePositionAux_zero (f : ℚ → ℚ) (t lb ub : ℚ) :
    falsePositionAux f t 0 lb ub = .notFound := rfl

theorem falsePositionAux_succ (f : ℚ → ℚ) (t : ℚ) (fuel : ℕ) (lb ub : ℚ) :
    falsePositionAux f t (fuel + 1) lb ub =
      if lb ≤ ub then
        if f lb - f ub = 0 then .divZero
        else
          if -t < f (ub - f ub * (lb - ub) / (f lb - f ub)) ∧
              f (ub - f ub * (lb - ub) / (f lb - f ub)) < t then
            .found (ub - f ub * (lb - ub) / (f lb - f ub))
          else if f lb * f (ub - f ub * (lb - ub) / (f lb - f ub)) < 0 then
            falsePositionAux f t fuel lb (ub - f ub * (lb - ub) / (f lb - f ub))
          else if f ub * f (ub - f ub * (lb - ub) / (f lb - f ub)) < 0 then
            falsePositionAux f t fuel (ub - f ub * (lb - ub) / (f lb - f ub)) ub
          else falsePositionAux f t fuel lb ub
      else .notFound := rfl

theorem newtonAux_zero (f f_der : ℚ → ℚ) (t x : ℚ) :
    newtonAux f f_der t 0 x = .notFound := rfl

theorem newtonAux_succ (f f_der : ℚ → ℚ) (t : ℚ) (fuel : ℕ) (x : ℚ) :
    newtonAux f f_der t (fuel + 1) x =
      if f_der x = 0 then .divZero
      else
        if -t < f (x - f x / f_der x) ∧ f (x - f x / f_der x) < t then
          .found (x - f x / f_der x)
        else newtonAux f f_der t fuel (x - f x / f_der x) := rfl

theorem secantAux_zero (f : ℚ → ℚ) (t x0 x1 : ℚ) :
    secantAux f t 0 x0 x1 = .notFound := rfl

theorem secantAux_succ (f : ℚ → ℚ) (t : ℚ) (fuel : ℕ) (x0 x1 : ℚ) :
    secantAux f t (fuel + 1) x0 x1 =
      if f x1 - f x0 = 0 then .divZero
      else
        if -t < f (x1 - f x1 * (x1 - x0) / (f x1 - f x0)) ∧
            f (x1 - f x1 * (x1 - x0) / (f x1 - f x0)) < t then
          .found (x1 - f x1 * (x1 - x0) / (f x1 - f x0))
        else secantAux f t fuel x1 (x1 - f x1 * (x1 - x0) / (f x1 - f x0)) := rfl

theorem modifiedSecantAux_zero (f : ℚ → ℚ) (t x0 dx : ℚ) :
    modifiedSecantAux f t x0 dx 0 = .notFound := rfl

theorem modifiedSecantAux_succ (f : ℚ → ℚ) (t x0 dx : ℚ) (fuel : ℕ) :
    modifiedSecantAux f t x0 dx (fuel + 1) =
      if f (x0 + dx) - f x0 = 0 then .divZero
      else
        if -t < f (x0 - f x0 * dx / (f (x0 + dx) - f x0)) ∧
            f (x0 - f x0 * dx / (f (x0 + dx) - f x0)) < t then
          .found (x0 - f x0 * dx / (f (x0 + dx) - f x0))
        else modifiedSecantAux f t x0 dx fuel := rfl

/-! Invariants of the loop bodies, proved by induction on the fuel. -/

/-- Any numeric estimate `bisectionAux` returns satisfies the convergence
check `-t < f x < t`: `found` is produced only in the check branch. -/
theorem bisectionAux_found (f : ℚ → ℚ) (t : ℚ) (fuel : ℕ) :
    ∀ lb ub x, bisectionAux f t fuel lb ub = .found x → -t < f x ∧ f x < t := by
  induction fuel with
  | zero =>
    intro lb ub x h
    rw [bisectionAux_zero] at h
    exact RootResult.noConfusion h
  | succ fuel ih =>
    intro lb ub x h
    rw [bisectionAux_succ] at h
    split at h
    · split at h
      · rename_i hc
        injection h with hx
        exact hx ▸ hc
      · split at h
        · exact ih _ _ _ h
        · split at h
          · exact ih _ _ _ h
          · exact ih _ _ _ h
    · exact RootResult.noConfusion h

/-- Any numeric estimate `falsePositionAux` returns satisfies the
convergence check. -/
theorem falsePositionAux_found (f : ℚ → ℚ) (t : ℚ) (fuel : ℕ) :
    ∀ lb ub x, falsePositionAux f t fuel lb ub = .found x →
      -t < f x ∧ f x < t := by
  induction fuel with
  | zero =>
    intro lb ub x h
    rw [falsePositionAux_zero] at h
    exact RootResult.noConfusion h
  | succ fuel ih =>
    intro lb ub x h
    rw [falsePositionAux_succ] at h
    split at h
    · split at h
      · exact RootResult.noConfusion h
      · split at h
        · rename_i hc
          injection h with hx
          exact hx ▸ hc
        · split at h
          · exact ih _ _ _ h
          · split at h
            · exact ih _ _ _ h
            · exact ih _ _ _ h
    · exact RootResult.noConfusion h

/-- Any numeric estimate `newtonAux` returns satisfies the convergence
check. -/
theorem newtonAux_found (f f_der : ℚ → ℚ) (t : ℚ) (fuel : ℕ) :
    ∀ x0 x, newtonAux f f_der t fuel x0 = .found x → -t < f x ∧ f x < t := by
  induction fuel with
  | zero =>
    intro x0 x h
    rw [newtonAux_zero] at h
    exact RootResult.noConfusion h
  | succ fuel ih =>
    intro x0 x h
    rw [newtonAux_succ] at h
    split at h
    · exact RootResult.noConfusion h
    · split at h
      · rename_i hc
        injection h with hx
        exact hx ▸ hc
      · exact ih _ _ h

/-- Any numeric estimate `secantAux` returns satisfies the convergence
check. -/
theorem secantAux_found (f : ℚ → ℚ) (t : ℚ) (fuel : ℕ) :
    ∀ x0 x1 x, secantAux f t fuel x0 x1 = .found x → -t < f x ∧ f x < t := by
  induction fuel with
  | zero =>
    intro x0 x1 x h
    rw [secantAux_zero] at h
    exact RootResult.noConfusion h
  | succ fuel ih =>
    intro x0 x1 x h
    rw [secantAux_succ] at h
    split at h
    · exact RootResult.noConfusion h
    · split at h
      · rename_i hc
        injection h with hx
        exact hx ▸ hc
      · exact ih _ _ _ h

/-- Any numeric estimate `modifiedSecantAux` returns satisfies the
convergence check. -/
theorem modifiedSecantAux_found (f : ℚ → ℚ) (t x0 dx : ℚ) (fuel : ℕ) :
    ∀ x, modifiedSecantAux f t x0 dx fuel = .found x → -t < f x ∧ f x < t := by
  induction fuel with
  | zero =>
    intro x h
    rw [modifiedSecantAux_zero] at h
    exact RootResult.noConfusion h
  | succ fuel ih =>
    intro x h
    rw [modifiedSecantAux_succ] at h
    split at h
    · exact RootResult.noConfusion h
    · split at h
      · rename_i hc
        injection h with hx
        exact hx ▸ hc
      · exact ih _ h

/-- Case split of a refiner result used for the uniform contract: either a
numeric estimate with the stated property, or `notFound`, or `divZero`. -/
theorem resultTriage (R : RootResult) (P : ℚ → Prop)
    (h : ∀ r, R = .found r → P r) :
    (∃ r, R = .found r ∧ P r) ∨ R = .notFound ∨ R = .divZero := by
  cases R with
  | found r => exact Or.inl ⟨r, rfl, h r rfl⟩
  | notFound => exact Or.inr (Or.inl rfl)
  | divZero => exact Or.inr (Or.inr rfl)

/-- The bisection loop contains no division by a function value, so it can
never produce the division-by-zero outcome. -/
theorem bisectionAux_ne_divZero (f : ℚ → ℚ) (t : ℚ) (fuel : ℕ) :
    ∀ lb ub, bisectionAux f t fuel lb ub ≠ .divZero := by
  induction fuel with
  | zero =>
    intro lb ub h
    rw [bisectionAux_zero] at h
    exact RootResult.noConfusion h
  | succ fuel ih =>
    intro lb ub h
    rw [bisectionAux_succ] at h
    split at h
    · split at h
      · exact RootResult.noConfusion h
      · split at h
        · exact ih _ _ h
        · split at h
          · exact ih _ _ h
          · exact ih _ _ h
    · exact RootResult.noConfusion h

/-- The bisection loop body runs at most `fuel` times, so at most `fuel`
midpoints are examined. -/
theorem bisectionStepsAux_le (f : ℚ → ℚ) (t : ℚ) (fuel : ℕ) :
    ∀ lb ub, bisectionStepsAux f t fuel lb ub ≤ fuel := by
  induction fuel with
  | zero =>
    intro lb ub
    rw [bisectionStepsAux_zero]
  | succ fuel ih =>
    intro lb ub
    rw [bisectionStepsAux_succ]
    split
    · split
      · omega
      · split
        · have := ih lb ((lb + ub) / 2)
          omega
        · split
          · have := ih ((lb + ub) / 2) ub
            omega
          · have := ih lb ub
            omega
    · omega

/-- If no point of the initial bracket `[lb0, ub0]` satisfies the
convergence check, the bisection loop reports `notFound`: every interval
it visits stays inside the initial bracket, so every midpoint it examines
fails the check. -/
theorem bisectionAux_notFound (f : ℚ → ℚ) (t lb0 ub0 : ℚ)
    (hf : ∀ x, lb0 ≤ x → x ≤ ub0 → ¬(-t < f x ∧ f x < t)) (fuel : ℕ) :
    ∀ lb ub, lb0 ≤ lb → ub ≤ ub0 → bisectionAux f t fuel lb ub = .notFound := by
  induction fuel with
  | zero =>
    intro lb ub _ _
    rw [bisectionAux_zero]
  | succ fuel ih =>
    intro lb ub h1 h2
    rw [bisectionAux_succ]
    by_cases hle : lb ≤ ub
    · have hm1 : lb ≤ (lb + ub) / 2 := by linarith
      have hm2 : (lb + ub) / 2 ≤ ub := by linarith
      have hnc := hf ((lb + ub) / 2) (le_trans h1 hm1) (le_trans hm2 h2)
      rw [if_pos hle, if_neg hnc]
      split
      · exact ih lb ((lb + ub) / 2) h1 (le_trans hm2 h2)
      · split
        · exact ih ((lb + ub) / 2) ub (le_trans h1 hm1) h2
        · exact ih lb ub h1 h2
    · rw [if_neg hle]

/-- With a positive increment, a fuel strictly larger than
`(ub - lb) / inc` reaches the loop exit: the scan position grows by `inc`
every iteration. -/
theorem incSearchAux_some (f : ℚ → ℚ) (ub inc : ℚ) (hinc : 0 < inc)
    (fuel : ℕ) :
    ∀ lb n acc, (ub - lb) / inc < (fuel : ℚ) →
      ∃ r, incSearchAux f ub inc fuel lb n acc = some r := by
  induction fuel with
  | zero =>
    intro lb n acc h
    rw [Nat.cast_zero] at h
    have hlt : ub - lb < 0 := by
      have := (div_lt_iff₀ hinc).mp h
      linarith
    rw [incSearchAux_zero, if_neg (not_le.mpr (by linarith))]
    exact ⟨(n, acc), rfl⟩
  | succ fuel ih =>
    intro lb n acc h
    rw [incSearchAux_succ]
    by_cases hle : lb ≤ ub
    · have key : (ub - (lb + inc)) / inc < (fuel : ℚ) := by
        have hstep : (ub - (lb + inc)) / inc = (ub - lb) / inc - 1 := by
          field_simp
          ring
        rw [Nat.cast_succ] at h
        rw [hstep]
        linarith
      rw [if_pos hle]
      split
      · split
        · exact ih _ _ _ key
        · exact ih _ _ _ key
      · split
        · exact ih _ _ _ key
        · exact ih _ _ _ key
    · rw [if_neg hle]
      exact ⟨(n, acc), rfl⟩

/-- With a non-positive increment and a position not beyond `ub`, the scan
loop condition stays true forever: the loop never terminates, for any
amount of fuel. -/
theorem incSearchAux_none (f : ℚ → ℚ) (ub inc : ℚ) (hinc : inc ≤ 0)
    (fuel : ℕ) :
    ∀ lb n acc, lb ≤ ub → incSearchAux f ub inc fuel lb n acc = none := by
  induction fuel with
  | zero =>
    intro lb n acc hle
    rw [incSearchAux_zero, if_pos hle]
  | succ fuel ih =>
    intro lb n acc hle
    have hle2 : lb + inc ≤ ub := by linarith
    rw [incSearchAux_succ, if_pos hle]
    split
    · split
      · exact ih _ _ _ hle2
      · exact ih _ _ _ hle2
    · split
      · exact ih _ _ _ hle2
      · exact ih _ _ _ hle2

/-- Every interval the scan loop appends either records a strict sign
change at its endpoints or is the degenerate bracket
`[x - inc, x + inc]` around an exact zero `x`, which is its midpoint. -/
theorem incSearchAux_mem (f : ℚ → ℚ) (ub inc : ℚ) (fuel : ℕ) :
    ∀ lb n acc m l, incSearchAux f ub inc fuel lb n acc = some (m, l) →
      (∀ p ∈ acc, f p.1 * f p.2 < 0 ∨ f ((p.1 + p.2) / 2) = 0) →
      ∀ p ∈ l, f p.1 * f p.2 < 0 ∨ f ((p.1 + p.2) / 2) = 0 := by
  induction fuel with
  | zero =>
    intro lb n acc m l h hacc
    rw [incSearchAux_zero] at h
    split at h
    · exact Option.noConfusion h
    · injection h with h
      injection h with h1 h2
      exact h2 ▸ hacc
  | succ fuel ih =>
    intro lb n acc m l h hacc
    rw [incSearchAux_succ] at h
    split at h
    · rename_i hle
      split at h
      · rename_i hzero
        have hdeg : f (((lb - inc) + (lb + inc)) / 2) = 0 := by
          have : ((lb - inc) + (lb + inc)) / 2 = lb := by ring
          rw [this]
          exact hzero
        split at h
        · rename_i hsign
          refine ih _ _ _ _ _ h ?_
          intro p hp
          simp only [List.mem_append, List.mem_singleton] at hp
          rcases hp with (hp | hp) | hp
          · exact hacc p hp
          · subst hp
            exact Or.inr hdeg
          · subst hp
            exact Or.inl hsign
        · refine ih _ _ _ _ _ h ?_
          intro p hp
          simp only [List.mem_append, List.mem_singleton] at hp
          rcases hp with hp | hp
          · exact hacc p hp
          · subst hp
            exact Or.inr hdeg
      · split at h
        · rename_i hsign
          refine ih _ _ _ _ _ h ?_
          intro p hp
          simp only [List.mem_append, List.mem_singleton] at hp
          rcases hp with hp | hp
          · exact hacc p hp
          · subst hp
            exact Or.inl hsign
        · exact ih _ _ _ _ _ h hacc
    · injection h with h
      injection h with h1 h2
      exact h2 ▸ hacc

/-- The modified-secant loop recomputes the same estimate from the same
`x0` and `dx` every iteration, so with any positive iteration budget the
result is the single-shot outcome: `divZero` on a zero denominator,
`found` when the one estimate meets the check, else `notFound`. -/
theorem modifiedSecantAux_eq (f : ℚ → ℚ) (t x0 dx : ℚ) (fuel : ℕ) :
    modifiedSecantAux f t x0 dx (fuel + 1) =
      if f (x0 + dx) - f x0 = 0 then .divZero
      else
        if -t < f (x0 - f x0 * dx / (f (x0 + dx) - f x0)) ∧
            f (x0 - f x0 * dx / (f (x0 + dx) - f x0)) < t then
          .found (x0 - f x0 * dx / (f (x0 + dx) - f x0))
        else .notFound := by
  induction fuel with
  | zero =>
    rw [modifiedSecantAux_succ]
    rfl
  | succ fuel ih =>
    rw [modifiedSecantAux_succ, ih]
    by_cases hd : f (x0 + dx) - f x0 = 0
    · rw [if_pos hd, if_pos hd]
    · rw [if_neg hd, if_neg hd]
      by_cases hc : -t < f (x0 - f x0 * dx / (f (x0 + dx) - f x0)) ∧
          f (x0 - f x0 * dx / (f (x0 + dx) - f x0)) < t
      · rw [if_pos hc, if_pos hc]
      · rw [if_neg hc, if_neg hc]

/-! Claim theorems. -/

/-- C1 (amended): for every target function, threshold and iteration cap,
each of the five refiners returns a numeric estimate `r` satisfying
`-threshold < f r < threshold`, the not-found signal, or an explicit
division-by-zero error; exhausting the iteration budget (fuel 0) always
yields not-found, never an error. -/
theorem c1_uniform_result_contract (f f_der : ℚ → ℚ) (lb ub x0 x1 dx t : ℚ)
    (M : ℕ) :
    ((∃ r, bisection f lb ub t M = .found r ∧ -t < f r ∧ f r < t) ∨
      bisection f lb ub t M = .notFound ∨ bisection f lb ub t M = .divZero) ∧
    ((∃ r, false_position f lb ub t M = .found r ∧ -t < f r ∧ f r < t) ∨
      false_position f lb ub t M = .notFound ∨
      false_position f lb ub t M = .divZero) ∧
    ((∃ r, newton_raphson f f_der x0 t M = .found r ∧ -t < f r ∧ f r < t) ∨
      newton_raphson f f_der x0 t M = .notFound ∨
      newton_raphson f f_der x0 t M = .divZero) ∧
    ((∃ r, secant f x0 x1 t M = .found r ∧ -t < f r ∧ f r < t) ∨
      secant f x0 x1 t M = .notFound ∨ secant f x0 x1 t M = .divZero) ∧
    ((∃ r, modified_secant f x0 dx t M = .found r ∧ -t < f r ∧ f r < t) ∨
      modified_secant f x0 dx t M = .notFound ∨
      modified_secant f x0 dx t M = .divZero) ∧
    bisectionAux f t 0 lb ub = .notFound ∧
    falsePositionAux f t 0 lb ub = .notFound ∧
    newtonAux f f_der t 0 x0 = .notFound ∧
    secantAux f t 0 x0 x1 = .notFound ∧
    modifiedSecantAux f t x0 dx 0 = .notFound := by
  refine ⟨?_, ?_, ?_, ?_, ?_, rfl, rfl, rfl, rfl, rfl⟩
  · exact resultTriage _ _ (fun r h => bisectionAux_found f t (M + 1) lb ub r h)
  · exact resultTriage _ _ (fun r h => falsePositionAux_found f t (M + 1) lb ub r h)
  · exact resultTriage _ _ (fun r h => newtonAux_found f f_der t (M + 1) x0 r h)
  · exact resultTriage _ _ (fun r h => secantAux_found f t (M + 1) x0 x1 r h)
  · exact resultTriage _ _ (fun r h => modifiedSecantAux_found f t x0 dx (M + 1) r h)

/-- C1 counterexample: `false_position` on the constant function 1 over
`[0, 1]` raises a division by zero, which is neither a numeric estimate
nor the not-found signal, so the claimed two-outcome contract is false as
universally stated. -/
theorem c1_cex_division_error :
    false_position (fun _ => (1 : ℚ)) 0 1 (1 / 1000) 100 = .divZero ∧
    (false_position (fun _ => (1 : ℚ)) 0 1 (1 / 1000) 100).isNum = false ∧
    false_position (fun _ => (1 : ℚ)) 0 1 (1 / 1000) 100 ≠ .notFound := by
  have h : false_position (fun _ => (1 : ℚ)) 0 1 (1 / 1000) 100 = .divZero := by
    rw [false_position, falsePositionAux_succ]
    norm_num
  refine ⟨h, by rw [h]; rfl, by rw [h]; exact fun hc => RootResult.noConfusion hc⟩

/-- C2 (amended): every interval returned by `incremental_search` either
has a strict sign change at its endpoints (`f a * f b < 0`) or is the
degenerate bracket around an exact zero, whose midpoint `(a + b)/2`
satisfies `f ((a + b)/2) = 0`; the endpoint product of a degenerate
bracket need not be `≤ 0`. -/
theorem c2_bracket_property (f : ℚ → ℚ) (lb ub inc : ℚ) (n : ℕ)
    (l : List (ℚ × ℚ)) (h : incremental_search f lb ub inc = some (n, l)) :
    ∀ p ∈ l, f p.1 * f p.2 < 0 ∨ f ((p.1 + p.2) / 2) = 0 :=
  incSearchAux_mem f ub inc _ lb 0 [] n l h (fun p hp => absurd hp (List.not_mem_nil p))

/-- C2 witness: the scan of `id` over `[-2, 2]` with step 4 returns the
sign-change interval `(-2, 2)`, and the theorem yields its property. -/
theorem c2_bracket_property_witness :
    (fun x : ℚ => x) (-2) * (fun x : ℚ => x) 2 < 0 ∨
      (fun x : ℚ => x) (((-2 : ℚ) + 2) / 2) = 0 := by
  have h : incremental_search (fun x : ℚ => x) (-2) 2 4 = some (1, [(-2, 2)]) := by
    rw [incremental_search]
    norm_num
    rw [incSearchAux_succ]
    norm_num
    rw [incSearchAux_succ]
    norm_num [incSearchAux_zero]
  exact c2_bracket_property (fun x : ℚ => x) (-2) 2 4 1 [(-2, 2)] h (-2, 2) (by simp)

/-- C2 counterexample: scanning `fun x => x * x` over `[0, 0]` with step 1
hits the exact zero at 0 and emits the degenerate interval `(-1, 1)`, whose
endpoint product is `1 > 0`, refuting `f a * f b ≤ 0` for every returned
interval. -/
theorem c2_cex_degenerate_bracket :
    incremental_search (fun x : ℚ => x * x) 0 0 1 = some (1, [(-1, 1)]) ∧
    ¬((fun x : ℚ => x * x) (-1) * (fun x : ℚ => x * x) 1 ≤ 0) := by
  constructor
  · rw [incremental_search]
    norm_num
    rw [incSearchAux_succ]
    norm_num [incSearchAux_zero]
  · norm_num

/-- C3 (amended): `modified_secant` never updates `x0` or `dx`, so every
iteration recomputes the same estimate
`x = x0 - f x0 * dx / (f (x0 + dx) - f x0)`; the call returns that single
estimate when it meets the threshold, the not-found signal when it does
not, and a division-by-zero error when `f (x0 + dx) = f x0`; in every case
the result is independent of `max_iterations`. -/
theorem c3_modified_secant_single_shot (f : ℚ → ℚ) (x0 dx t : ℚ) (M : ℕ) :
    modified_secant f x0 dx t M =
      (if f (x0 + dx) - f x0 = 0 then .divZero
       else
         if -t < f (x0 - f x0 * dx / (f (x0 + dx) - f x0)) ∧
             f (x0 - f x0 * dx / (f (x0 + dx) - f x0)) < t then
           .found (x0 - f x0 * dx / (f (x0 + dx) - f x0))
         else .notFound) ∧
    ∀ M' : ℕ, modified_secant f x0 dx t M = modified_secant f x0 dx t M' :=
  ⟨modifiedSecantAux_eq f t x0 dx M,
    fun M' => (modifiedSecantAux_eq f t x0 dx M).trans
      (modifiedSecantAux_eq f t x0 dx M').symm⟩

/-- C3 counterexample: on the constant function 1 the denominator
`f (x0 + dx) - f x0` is zero, so the call returns the division-by-zero
error, which is neither the single estimate nor the not-found signal
claimed by the "returns the estimate or not-found" dichotomy. -/
theorem c3_cex_division_error :
    (modified_secant (fun _ => (1 : ℚ)) 0 1 (1 / 1000) 100).isNum = false ∧
    modified_secant (fun _ => (1 : ℚ)) 0 1 (1 / 1000) 100 ≠ .notFound := by
  have h : modified_secant (fun _ => (1 : ℚ)) 0 1 (1 / 1000) 100 = .divZero := by
    rw [modified_secant, modifiedSecantAux_succ]
    norm_num
  exact ⟨by rw [h]; rfl, by rw [h]; exact fun hc => RootResult.noConfusion hc⟩

/-- C4 (amended): `bisection` examines at most `max_iterations + 1`
midpoints (the loop breaks only once the post-incremented counter exceeds
the cap, so one extra midpoint runs); it never raises; when no point
meets the convergence check it returns not-found, and it returns not-found
when the loop condition `lb ≤ ub` fails at entry. -/
theorem c4_bisection_iteration_cap (f : ℚ → ℚ) (lb ub t : ℚ) (M : ℕ) :
    bisectionSteps f lb ub t M ≤ M + 1 ∧
    bisection f lb ub t M ≠ .divZero ∧
    ((∀ x, ¬(-t < f x ∧ f x < t)) → bisection f lb ub t M = .notFound) ∧
    (ub < lb → bisection f lb ub t M = .notFound) := by
  refine ⟨bisectionStepsAux_le f t (M + 1) lb ub,
    bisectionAux_ne_divZero f t (M + 1) lb ub, fun h => ?_, fun h => ?_⟩
  · exact bisectionAux_notFound f t lb ub (fun x _ _ => h x) (M + 1) lb ub le_rfl le_rfl
  · rw [bisection, bisectionAux_succ, if_neg (not_le.mpr h)]

/-- C4 witness: on the constant function 1 with threshold 1/2 and cap 3 the
step count is within the bound and the result is not-found; with a reversed
bracket the result is not-found immediately. -/
theorem c4_bisection_iteration_cap_witness :
    bisectionSteps (fun _ => (1 : ℚ)) 0 1 (1 / 2) 3 ≤ 4 ∧
    bisection (fun _ => (1 : ℚ)) 0 1 (1 / 2) 3 = .notFound ∧
    bisection (fun _ => (1 : ℚ)) 1 0 (1 / 2) 3 = .notFound := by
  refine ⟨(c4_bisection_iteration_cap (fun _ => (1 : ℚ)) 0 1 (1 / 2) 3).1,
    (c4_bisection_iteration_cap (fun _ => (1 : ℚ)) 0 1 (1 / 2) 3).2.2.1 ?_,
    (c4_bisection_iteration_cap (fun _ => (1 : ℚ)) 1 0 (1 / 2) 3).2.2.2 (by norm_num)⟩
  intro x
  norm_num

/-- C4 counterexample: with `max_iterations = 0` the loop still examines
one midpoint (the claim allows zero) and can even converge there, instead
of giving up after zero midpoints. -/
theorem c4_cex_extra_midpoint :
    bisectionSteps (fun x : ℚ => x) (-1) 1 1 0 = 1 ∧
    bisection (fun x : ℚ => x) (-1) 1 1 0 = .found 0 := by
  constructor
  · rw [bisectionSteps, bisectionStepsAux_succ]
    norm_num
  · rw [bisection, bisectionAux_succ]
    norm_num

/-- C5: at any iteration of `false_position` (any reachable bracket state
with `lb ≤ ub` and any remaining iteration budget), the loop computes the
estimate `x_r = ub - f ub * (lb - ub) / (f lb - f ub)`; when
`f lb = f ub` it instead fails with the division-by-zero error rather than
returning a number or not-found, and the top-level call behaves exactly
the same way on its initial bracket. -/
theorem c5_false_position_step (f : ℚ → ℚ) (t lb ub : ℚ) (M : ℕ)
    (hle : lb ≤ ub) :
    (∀ k : ℕ, f lb = f ub → falsePositionAux f t (k + 1) lb ub = .divZero) ∧
    (f lb = f ub → false_position f lb ub t M = .divZero) ∧
    (∀ k : ℕ, f lb ≠ f ub →
      (-t < f (ub - f ub * (lb - ub) / (f lb - f ub)) ∧
        f (ub - f ub * (lb - ub) / (f lb - f ub)) < t) →
      falsePositionAux f t (k + 1) lb ub =
        .found (ub - f ub * (lb - ub) / (f lb - f ub))) ∧
    (f lb ≠ f ub →
      (-t < f (ub - f ub * (lb - ub) / (f lb - f ub)) ∧
        f (ub - f ub * (lb - ub) / (f lb - f ub)) < t) →
      false_position f lb ub t M =
        .found (ub - f ub * (lb - ub) / (f lb - f ub))) := by
  have hdiv : ∀ k : ℕ, f lb = f ub → falsePositionAux f t (k + 1) lb ub = .divZero := by
    intro k hfe
    rw [falsePositionAux_succ, if_pos hle, if_pos (by rw [hfe, sub_self])]
  have hfnd : ∀ k : ℕ, f lb ≠ f ub →
      (-t < f (ub - f ub * (lb - ub) / (f lb - f ub)) ∧
        f (ub - f ub * (lb - ub) / (f lb - f ub)) < t) →
      falsePositionAux f t (k + 1) lb ub =
        .found (ub - f ub * (lb - ub) / (f lb - f ub)) := by
    intro k hne hc
    rw [falsePositionAux_succ, if_pos hle, if_neg (sub_ne_zero_of_ne hne), if_pos hc]
  exact ⟨hdiv, hdiv M, hfnd, hfnd M⟩

/-- C5 witness: the constant function 2 on `[0, 1]` makes `f lb = f ub`
and the call fails with the division-by-zero error; `id` on `[-1, 1]` has
distinct endpoint values, the estimate is computed from the secant-line
formula and returned as a numeric result. -/
theorem c5_false_position_step_witness :
    false_position (fun _ => (2 : ℚ)) 0 1 (1 / 1000) 50 = .divZero ∧
    (false_position (fun x : ℚ => x) (-1) 1 1 50).isNum = true := by
  constructor
  · exact (c5_false_position_step (fun _ => (2 : ℚ)) (1 / 1000) 0 1 50 (by norm_num)).2.1 rfl
  · have h := (c5_false_position_step (fun x : ℚ => x) 1 (-1) 1 50 (by norm_num)).2.2.2
      (by norm_num) (by norm_num)
    rw [h]
    rfl

/-- C6: whenever the derivative evaluates to zero at the current iterate —
any iterate the loop can reach, the initial guess included — the
Newton-Raphson loop returns the explicit division-by-zero failure. -/
theorem c6_newton_derivative_zero (f f_der : ℚ → ℚ) (t : ℚ) :
    (∀ (k : ℕ) (x : ℚ), f_der x = 0 → newtonAux f f_der t (k + 1) x = .divZero) ∧
    (∀ (x0 : ℚ) (M : ℕ), f_der x0 = 0 → newton_raphson f f_der x0 t M = .divZero) := by
  have h : ∀ (k : ℕ) (x : ℚ), f_der x = 0 → newtonAux f f_der t (k + 1) x = .divZero := by
    intro k x hd
    rw [newtonAux_succ, if_pos hd]
  exact ⟨h, fun x0 M hd => h M x0 hd⟩

/-- C6 witness: a stationary initial guess (zero derivative) produces the
division-by-zero failure. -/
theorem c6_newton_derivative_zero_witness :
    newton_raphson (fun x : ℚ => x * x) (fun _ => (0 : ℚ)) 5 (1 / 1000) 100 = .divZero :=
  (c6_newton_derivative_zero (fun x : ℚ => x * x) (fun _ => (0 : ℚ)) (1 / 1000)).2 5 100 rfl

/-- C7: for bounds with `lb ≤ ub` the scan terminates whenever the
increment is positive (the provided fuel reaches the loop exit), and for a
non-positive increment the loop never terminates: it returns `none` for
every amount of fuel. -/
theorem c7_scan_termination (f : ℚ → ℚ) (lb ub inc : ℚ) (hle : lb ≤ ub) :
    (0 < inc → ∃ r, incremental_search f lb ub inc = some r) ∧
    (inc ≤ 0 → ∀ (fuel : ℕ) (n : ℕ) (acc : List (ℚ × ℚ)),
      incSearchAux f ub inc fuel lb n acc = none) := by
  constructor
  · intro hinc
    rw [incremental_search, if_pos hinc]
    apply incSearchAux_some f ub inc hinc _ lb 0 []
    have h1 : (ub - lb) / inc ≤ (⌈(ub - lb) / inc⌉ : ℚ) := Int.le_ceil _
    have h2 : (⌈(ub - lb) / inc⌉ : ℤ) ≤ ((⌈(ub - lb) / inc⌉.toNat : ℕ) : ℤ) :=
      Int.self_le_toNat _
    have h3 : ((⌈(ub - lb) / inc⌉ : ℤ) : ℚ) ≤ ((⌈(ub - lb) / inc⌉.toNat : ℕ) : ℚ) := by
      exact_mod_cast h2
    push_cast
    linarith
  · intro hinc fuel n acc
    exact incSearchAux_none f ub inc hinc fuel lb n acc hle

/-- C7 witness: scanning `[0, 1]` with increment 1 terminates; with
increment 0 the loop runs forever (returns `none` at every fuel). -/
theorem c7_scan_termination_witness :
    (∃ r, incremental_search (fun x : ℚ => x) 0 1 1 = some r) ∧
    incSearchAux (fun x : ℚ => x) 1 0 5 0 0 [] = none := by
  constructor
  · exact (c7_scan_termination (fun x : ℚ => x) 0 1 1 (by norm_num)).1 (by norm_num)
  · exact (c7_scan_termination (fun x : ℚ => x) 0 1 0 (by norm_num)).2 (by norm_num) 5 0 []

/-- C8 (amended): for every bracket on which the function value never
meets the threshold (in particular a same-sign bracket that stays at least
`threshold` away from zero), `bisection` returns the not-found signal
within its `max_iterations + 1` iterations and never a numeric estimate;
the same-sign/no-zero condition alone is not enough, since a midpoint with
`|f| < threshold` is returned even when `f` has no zero. -/
theorem c8_threshold_far_bracket (f : ℚ → ℚ) (lb ub t : ℚ) (M : ℕ)
    (hf : ∀ x, lb ≤ x → x ≤ ub → ¬(-t < f x ∧ f x < t)) :
    bisection f lb ub t M = .notFound :=
  bisectionAux_notFound f t lb ub hf (M + 1) lb ub le_rfl le_rfl

/-- C8 witness: the constant function 1 on `[0, 1]` with threshold 1/3
never meets the check, so the call reports not-found. -/
theorem c8_threshold_far_bracket_witness :
    bisection (fun _ => (1 : ℚ)) 0 1 (1 / 3) 2 = .notFound :=
  c8_threshold_far_bracket (fun _ => (1 : ℚ)) 0 1 (1 / 3) 2
    (fun x _ _ => by norm_num)

/-- C8 counterexample: the constant function 1/10000 on `[0, 1]` has
same-sign endpoint values (their product is positive) and no zero
anywhere, yet `bisection` returns the numeric estimate 1/2 because the
first midpoint already satisfies `|f| < 1/1000`. -/
theorem c8_cex_numeric_on_same_sign_bracket :
    bisection (fun _ => (1 : ℚ) / 10000) 0 1 (1 / 1000) 100 = .found (1 / 2) ∧
    (0 : ℚ) < (1 / 10000) * (1 / 10000) ∧ ((1 : ℚ) / 10000) ≠ 0 := by
  refine ⟨?_, by norm_num, by norm_num⟩
  rw [bisection, bisectionAux_succ]
  norm_num

/-- C9: every routine is a pure function of its arguments: two calls with
identical numeric arguments and pointwise-equal target (and derivative)
functions return identical results. -/
theorem c9_pure_determinism (f g f_der g_der : ℚ → ℚ)
    (hfg : ∀ x, f x = g x) (hdd : ∀ x, f_der x = g_der x)
    (lb ub inc x0 x1 dx t : ℚ) (M : ℕ) :
    incremental_search f lb ub inc = incremental_search g lb ub inc ∧
    bisection f lb ub t M = bisection g lb ub t M ∧
    false_position f lb ub t M = false_position g lb ub t M ∧
    newton_raphson f f_der x0 t M = newton_raphson g g_der x0 t M ∧
    secant f x0 x1 t M = secant g x0 x1 t M ∧
    modified_secant f x0 dx t M = modified_secant g x0 dx t M := by
  have h1 : f = g := funext hfg
  have h2 : f_der = g_der := funext hdd
  subst h1
  subst h2
  exact ⟨rfl, rfl, rfl, rfl, rfl, rfl⟩

/-- C9 witness: two syntactically different but pointwise-equal function
arguments give identical outputs across all six routines. -/
theorem c9_pure_determinism_witness :
    incremental_search (fun x : ℚ => x + x) 0 1 1 =
      incremental_search (fun x : ℚ => 2 * x) 0 1 1 ∧
    bisection (fun x : ℚ => x + x) 0 1 1 5 =
      bisection (fun x : ℚ => 2 * x) 0 1 1 5 ∧
    false_position (fun x : ℚ => x + x) 0 1 1 5 =
      false_position (fun x : ℚ => 2 * x) 0 1 1 5 ∧
    newton_raphson (fun x : ℚ => x + x) (fun _ => (2 : ℚ)) 0 1 5 =
      newton_raphson (fun x : ℚ => 2 * x) (fun _ => (1 : ℚ) + 1) 0 1 5 ∧
    secant (fun x : ℚ => x + x) 0 1 1 5 = secant (fun x : ℚ => 2 * x) 0 1 1 5 ∧
    modified_secant (fun x : ℚ => x + x) 0 1 1 5 =
      modified_secant (fun x : ℚ => 2 * x) 0 1 1 5 :=
  c9_pure_determinism _ _ _ _ (fun x => by ring) (fun x => by norm_num)
    0 1 1 0 1 1 1 5

/-- C10 (amended): `newton_raphson` always performs an update step before
any convergence check: it evaluates `f_der x0` first (failing with the
division-by-zero error when that is zero), and when the first update
`x0 - f x0 / f_der x0` meets the threshold it returns that updated value —
which coincides with `x0` exactly when `f x0 = 0` — never skipping the
update; when the first update misses the threshold the loop continues from
the updated iterate. -/
theorem c10_newton_updates_before_check (f f_der : ℚ → ℚ) (x0 t : ℚ) (M : ℕ) :
    (f_der x0 = 0 → newton_raphson f f_der x0 t M = .divZero) ∧
    (f_der x0 ≠ 0 →
      (-t < f (x0 - f x0 / f_der x0) ∧ f (x0 - f x0 / f_der x0) < t) →
      newton_raphson f f_der x0 t M = .found (x0 - f x0 / f_der x0)) ∧
    (f_der x0 ≠ 0 →
      ¬(-t < f (x0 - f x0 / f_der x0) ∧ f (x0 - f x0 / f_der x0) < t) →
      newton_raphson f f_der x0 t M = newtonAux f f_der t M (x0 - f x0 / f_der x0)) := by
  refine ⟨fun hd => ?_, fun hd hc => ?_, fun hd hc => ?_⟩
  · rw [newton_raphson, newtonAux_succ, if_pos hd]
  · rw [newton_raphson, newtonAux_succ, if_neg hd, if_pos hc]
  · rw [newton_raphson, newtonAux_succ, if_neg hd, if_neg hc]

/-- C10 witness: for `f = id`, `f_der = 1`, `x0 = 1/2`, threshold 1, the
initial guess already meets the threshold yet the returned value is the
updated `x0 - f x0 / f_der x0 = 0`, not `x0 = 1/2`. -/
theorem c10_newton_updates_before_check_witness :
    newton_raphson (fun x : ℚ => x) (fun _ => (1 : ℚ)) (1 / 2) 1 100 =
      .found (1 / 2 - (1 / 2) / 1) :=
  (c10_newton_updates_before_check (fun x : ℚ => x) (fun _ => (1 : ℚ)) (1 / 2) 1 100).2.1
    (by norm_num) (by norm_num)

/-- C10 counterexample: with `f = id` and `x0 = 0` the update
`x0 - f x0 / f_der x0` equals `x0` itself, so the call does return the
initial guess 0, refuting "never returns the initial guess x0 itself". -/
theorem c10_cex_returns_initial_guess :
    newton_raphson (fun x : ℚ => x) (fun _ => (1 : ℚ)) 0 1 100 = .found 0 := by
  rw [newton_raphson, newtonAux_succ]
  norm_num
